import Mathlib

/-!
Verification of the mirDIP BioCypher adapter
(`mirDIP_adapter.py`): a shallow embedding of the
identifier-resolution and batch edge-emission pipeline, followed by
theorems settling the specification's claims about it.

Modelling conventions:
* Rows of the interaction table are records of the eight columns the
  adapter reads; cell values are strings.
* The external mapping authority (`pypath.utils.mapping.map_name`) is a
  parameter `authority : String → List String`; per its documented
  contract it returns a possibly-empty collection of identifiers, a
  failed query surfacing as the empty result.
* `hashlib.md5(...).hexdigest()` is a parameter `h : String → String`
  applied to the Python `str` of the row tuple, which is embedded
  faithfully (`rowStr`).
* Python dictionaries are insertion-ordered association lists, Python
  sets of symbols are lists with membership read up to duplication.
-/

namespace MirDIP

/-- Node types of the adapter (`mirDIPAdapterNodeType`). -/
inductive NodeType where
  | PROTEIN
  | MICRORNA
deriving DecidableEq

/-- Edge types of the adapter (`mirDIPAdapterEdgeType`). -/
inductive EdgeType where
  | MIRNA_PROTEIN_INTERACTION
deriving DecidableEq

/-- Edge fields of the adapter (`mirDIPAdapterMirnaGeneEdgeField`).
In the source, `GENE_UNIPROT_ID = auto()` evaluates to `7`, the value
already held by `SCORE_CLASS`, so Python makes it an alias of
`SCORE_CLASS` rather than a distinct member; the enumeration therefore
has exactly the eight canonical members below. -/
inductive MirnaGeneEdgeField where
  | GENE_SYMBOL
  | MICRORNA
  | RANK
  | SCORE
  | SCORE_CLASS
  | SOURCE
  | ORIGINAL_SOURCE_GENE_SYMBOL
  | ORIGINAL_SOURCE_MICRORNA
deriving DecidableEq

/-- Column index of each edge field (`.value` in the source). -/
def MirnaGeneEdgeField.value : MirnaGeneEdgeField → Nat
  | .GENE_SYMBOL => 0
  | .MICRORNA => 1
  | .RANK => 2
  | .SCORE => 3
  | .SCORE_CLASS => 7
  | .SOURCE => 4
  | .ORIGINAL_SOURCE_GENE_SYMBOL => 5
  | .ORIGINAL_SOURCE_MICRORNA => 6

/-- Source attribute `self.data_source = "mirDIP"`. -/
def dataSource : String := "mirDIP"

/-- Source attribute `self.data_version = "5.2"`. -/
def dataVersion : String := "5.2"

/-- Source attribute `self.data_licence = ...`. -/
def dataLicence : String :=
  "free to use, copy, and modify for academic and non-commercial purposes"

/-- One row of the interaction table, fields listed in column order
(indices 0–7, matching `MirnaGeneEdgeField.value`). -/
structure Row where
  gene_symbol : String
  microrna : String
  rank : String
  score : String
  source : String
  gene_symbol_ori : String
  microrna_ori : String
  score_class : String
deriving DecidableEq

/-- Positional access `row[i]` used by `get_edges`. -/
def Row.item (r : Row) : Nat → String
  | 0 => r.gene_symbol
  | 1 => r.microrna
  | 2 => r.rank
  | 3 => r.score
  | 4 => r.source
  | 5 => r.gene_symbol_ori
  | 6 => r.microrna_ori
  | 7 => r.score_class
  | _ => ""

/-- Escape pass of Python `repr` on a string: backslashes and the
chosen quote character are backslash-escaped. -/
def pyEscape (q : Char) : List Char → List Char
  | [] => []
  | c :: rest =>
    if c = Char.ofNat 92 then Char.ofNat 92 :: Char.ofNat 92 :: pyEscape q rest
    else if c = q then Char.ofNat 92 :: q :: pyEscape q rest
    else c :: pyEscape q rest

/-- Python `repr` of a (printable-ASCII) string: single-quoted, unless
the string contains a single quote and no double quote, in which case
double-quoted; backslashes and the quote character are escaped. -/
def pyRepr (s : String) : String :=
  let q : Char :=
    if Char.ofNat 39 ∈ s.data ∧ Char.ofNat 34 ∉ s.data then Char.ofNat 34
    else Char.ofNat 39
  String.mk (q :: (pyEscape q s.data ++ [q]))

/-- Python `str(row)` for the eight-column row tuple:
`"(" + ", ".join(repr(cell)) + ")"`. This is the string hashed to form
the edge identifier (`hashlib.md5(str(row).encode()).hexdigest()`). -/
def rowStr (r : Row) : String :=
  "(" ++ pyRepr r.gene_symbol ++ ", " ++ pyRepr r.microrna ++ ", "
      ++ pyRepr r.rank ++ ", " ++ pyRepr r.score ++ ", "
      ++ pyRepr r.source ++ ", " ++ pyRepr r.gene_symbol_ori ++ ", "
      ++ pyRepr r.microrna_ori ++ ", " ++ pyRepr r.score_class ++ ")"

/-- Python `dict` lookup (`d.get(k)`), on an insertion-ordered
association list. -/
def dictGet (d : List (String × List String)) (k : String) :
    Option (List String) :=
  (d.find? (fun p => p.1 == k)).map (fun p => p.2)

/-- An edge record yielded by `get_edges`:
`(_id, mir_name, "uniprot:"+uniprot, label, props)`. -/
structure Edge where
  eid : String
  src : String
  tgt : String
  label : String
  props : List (String × String)
deriving DecidableEq

/-- Body of the `for row in batch.iter_rows()` loop of `get_edges`:
the edge records yielded for one row, given the hash function `h`, the
resolver output `symbol_to_uniprot` and the active `edge_fields`. -/
def getEdgesRow (h : String → String)
    (symbol_to_uniprot : List (String × List String))
    (edge_fields : List MirnaGeneEdgeField) (row : Row) : List Edge :=
  let gene_symbol := row.item MirnaGeneEdgeField.GENE_SYMBOL.value
  let mir_name := row.item MirnaGeneEdgeField.MICRORNA.value
  let label :=
    "mirna_protein_interaction_"
      ++ row.item MirnaGeneEdgeField.SCORE_CLASS.value
  let props :=
    [("source", row.item MirnaGeneEdgeField.SOURCE.value),
     ("version", dataSource ++ " version " ++ dataVersion),
     ("licence", dataLicence)]
  let props :=
    if MirnaGeneEdgeField.RANK ∈ edge_fields then
      props ++ [("rank", row.item MirnaGeneEdgeField.RANK.value)]
    else props
  let props :=
    if MirnaGeneEdgeField.SCORE ∈ edge_fields then
      props ++ [("score", row.item MirnaGeneEdgeField.SCORE.value)]
    else props
  let props :=
    if MirnaGeneEdgeField.SCORE_CLASS ∈ edge_fields then
      props ++ [("score_class", row.item MirnaGeneEdgeField.SCORE_CLASS.value)]
    else props
  let uniprots := (dictGet symbol_to_uniprot gene_symbol).getD []
  let edge_id := h (rowStr row)
  uniprots.map (fun uniprot =>
    { eid := edge_id, src := mir_name, tgt := "uniprot:" ++ uniprot,
      label := label, props := props })

/-- Generator `get_edges(batch)`: the edge records yielded over a whole batch, in
row order. -/
def getEdges (h : String → String)
    (symbol_to_uniprot : List (String × List String))
    (edge_fields : List MirnaGeneEdgeField) (batch : List Row) : List Edge :=
  batch.flatMap (getEdgesRow h symbol_to_uniprot edge_fields)

/-- All node types, in definition order (`[t for t in mirDIPAdapterNodeType]`). -/
def allNodeTypes : List NodeType := [.PROTEIN, .MICRORNA]

/-- All edge types, in definition order. -/
def allEdgeTypes : List EdgeType := [.MIRNA_PROTEIN_INTERACTION]

/-- All edge fields, in definition order, aliases skipped
(`[f for f in mirDIPAdapterMirnaGeneEdgeField]`). -/
def allEdgeFields : List MirnaGeneEdgeField :=
  [.GENE_SYMBOL, .MICRORNA, .RANK, .SCORE, .SCORE_CLASS, .SOURCE,
   .ORIGINAL_SOURCE_GENE_SYMBOL, .ORIGINAL_SOURCE_MICRORNA]

/-- Method `_set_types_and_fields`, node-type branch: `if node_types:` is
Python truthiness, so both `None` and an empty list fall back to the
full enumeration. -/
def setNodeTypes : Option (List NodeType) → List NodeType
  | none => allNodeTypes
  | some l => if l.isEmpty then allNodeTypes else l

/-- Method `_set_types_and_fields`, edge-type branch. -/
def setEdgeTypes : Option (List EdgeType) → List EdgeType
  | none => allEdgeTypes
  | some l => if l.isEmpty then allEdgeTypes else l

/-- Method `_set_types_and_fields`, edge-field branch. -/
def setEdgeFields : Option (List MirnaGeneEdgeField) → List MirnaGeneEdgeField
  | none => allEdgeFields
  | some l => if l.isEmpty then allEdgeFields else l

/-- One iteration of the `_translate_gene_symbols` loop, instrumented
with the list of names queried at the mapping authority. Returns
`(resolution, queries)` where `resolution = none` marks the symbol
unmapped. `authority` is `mapping.map_name` (genesymbol → uniprot,
taxon 9606); `orig` looks up the symbol's `GENE_SYMBOL_ORI` in the
data. `if not uniprot_id:` is the Python emptiness test. -/
def resolveSymbolT (authority : String → List String)
    (orig : String → String) (gene_symbol : String) :
    Option (List String) × List String :=
  let uniprot_id := authority gene_symbol
  if uniprot_id.isEmpty then
    let original_gene_symbol := orig gene_symbol
    if original_gene_symbol = gene_symbol then
      (none, [gene_symbol])
    else
      let uniprot_id := authority original_gene_symbol
      if uniprot_id.isEmpty then
        (none, [gene_symbol, original_gene_symbol])
      else
        (some uniprot_id, [gene_symbol, original_gene_symbol])
  else
    (some uniprot_id, [gene_symbol])

/-- The per-symbol outcome of `_translate_gene_symbols`:
`some ids` when the symbol enters `symbol_to_uniprot` with value
`ids`, `none` when it enters `unmapped_gene_symbols`. -/
def resolveSymbol (authority : String → List String)
    (orig : String → String) (gene_symbol : String) :
    Option (List String) :=
  (resolveSymbolT authority orig gene_symbol).1

/-- The names queried at the mapping authority while resolving one
symbol. -/
def resolveSymbolQueries (authority : String → List String)
    (orig : String → String) (gene_symbol : String) : List String :=
  (resolveSymbolT authority orig gene_symbol).2

/-- Method `_translate_gene_symbols`: iterate over the gene symbols, building
`(symbol_to_uniprot, unmapped_gene_symbols)`. -/
def translateGeneSymbols (authority : String → List String)
    (orig : String → String) (gene_symbols : List String) :
    List (String × List String) × List String :=
  gene_symbols.foldl
    (fun acc gene_symbol =>
      match resolveSymbol authority orig gene_symbol with
      | none => (acc.1, acc.2 ++ [gene_symbol])
      | some uniprot_id => (acc.1 ++ [(gene_symbol, uniprot_id)], acc.2))
    ([], [])

/-- Lookup of `GENE_SYMBOL_ORI` on the first data row whose `GENE_SYMBOL` equals
the given symbol
(`data.filter(...).get_column("GENE_SYMBOL_ORI").to_list()[0]`; in the
source the symbol always comes from that column, so the filter is
never empty — the default covers the impossible case). -/
def originalOf (data : List Row) (s : String) : String :=
  (((data.filter (fun r => r.gene_symbol == s)).map
      (fun r => r.gene_symbol_ori)).headD "")

/-- Distinct symbols `set(self.data.get_column("GENE_SYMBOL").to_list())`: the
gene symbols of the data. -/
def geneSymbolsOf (data : List Row) : List String :=
  (data.map (fun r => r.gene_symbol)).dedup

/-- Method `_translate_gene_symbols` as run on a loaded table: symbols and
original forms both drawn from the data. -/
def translateFromData (authority : String → List String)
    (data : List Row) : List (String × List String) × List String :=
  translateGeneSymbols authority (originalOf data) (geneSymbolsOf data)

/-- Whether a property mapping contains an entry with the given key. -/
def hasKey (props : List (String × String)) (k : String) : Bool :=
  props.any (fun p => p.1 == k)

/-- A cell value is clean when it contains no single quote (39) and no
backslash (92); gene symbols, miRNA names and the other mirDIP columns
are of this shape, and on clean cells Python `repr` is plain
single-quoting. -/
def cleanStr (s : String) : Prop :=
  Char.ofNat 39 ∉ s.data ∧ Char.ofNat 92 ∉ s.data

instance (s : String) : Decidable (cleanStr s) := by
  unfold cleanStr; infer_instance

/-- All eight cells of a row are clean. -/
def cleanRow (r : Row) : Prop :=
  cleanStr r.gene_symbol ∧ cleanStr r.microrna ∧ cleanStr r.rank ∧
  cleanStr r.score ∧ cleanStr r.source ∧ cleanStr r.gene_symbol_ori ∧
  cleanStr r.microrna_ori ∧ cleanStr r.score_class

instance (r : Row) : Decidable (cleanRow r) := by
  unfold cleanRow; infer_instance

/-- Demonstration row used to instantiate hypotheses of the theorems
below on concrete input. -/
def demoRow : Row := ⟨"g", "m", "1", "0.5", "db", "g", "m", "hi"⟩

/-- Demonstration resolver table for the same purpose. -/
def demoTab : List (String × List String) := [("g", ["P", "Q"])]

/-- Canonical character shape of the quoted, comma-separated cell list
inside the Python `str` of a row (clean cells): each cell single-quoted
(39), cells separated by a comma and a space. -/
def quoteJoin : List (List Char) → List Char
  | [] => []
  | [f] => Char.ofNat 39 :: f ++ [Char.ofNat 39]
  | f :: fs => Char.ofNat 39 :: f ++ Char.ofNat 39 :: ',' :: ' ' :: quoteJoin fs

/-- The first edge emitted for `demoRow` against `demoTab` with every
edge field active. -/
def demoEdge : Edge :=
  { eid := rowStr demoRow, src := "m", tgt := "uniprot:P",
    label := "mirna_protein_interaction_hi",
    props := [("source", "db"), ("version", "mirDIP version 5.2"),
              ("licence", dataLicence), ("rank", "1"), ("score", "0.5"),
              ("score_class", "hi")] }

/-- The first edge emitted for `demoRow` against `demoTab` with no
edge field active. -/
def demoEdgeBase : Edge :=
  { eid := rowStr demoRow, src := "m", tgt := "uniprot:P",
    label := "mirna_protein_interaction_hi",
    props := [("source", "db"), ("version", "mirDIP version 5.2"),
              ("licence", dataLicence)] }

/-- Branch-free form of the per-symbol resolution outcome. -/
theorem resolveSymbol_eq (authority : String → List String)
    (orig : String → String) (s : String) :
    resolveSymbol authority orig s
    = if (authority s).isEmpty then
        (if orig s = s then none
         else if (authority (orig s)).isEmpty then none
         else some (authority (orig s)))
      else some (authority s) := by
  simp only [resolveSymbol, resolveSymbolT]
  by_cases h1 : (authority s).isEmpty <;> simp only [h1, if_true, if_false] <;>
    by_cases h2 : orig s = s <;> simp only [h2, if_true, if_false] <;>
    by_cases h3 : (authority (orig s)).isEmpty <;> simp [h3]

/-- Branch-free form of the per-symbol query trace. -/
theorem resolveSymbolQueries_eq (authority : String → List String)
    (orig : String → String) (s : String) :
    resolveSymbolQueries authority orig s
    = if (authority s).isEmpty then
        (if orig s = s then [s] else [s, orig s])
      else [s] := by
  simp only [resolveSymbolQueries, resolveSymbolT]
  by_cases h1 : (authority s).isEmpty <;> simp only [h1, if_true, if_false] <;>
    by_cases h2 : orig s = s <;> simp only [h2, if_true, if_false] <;>
    by_cases h3 : (authority (orig s)).isEmpty <;> simp [h3]

/-- A symbol recorded in the table carries a nonempty identifier list. -/
theorem resolveSymbol_ne_nil (authority : String → List String)
    (orig : String → String) (s : String) (ids : List String)
    (h : resolveSymbol authority orig s = some ids) : ids ≠ [] := by
  rw [resolveSymbol_eq] at h
  by_cases h1 : (authority s).isEmpty
  · rw [if_pos h1] at h
    by_cases h2 : orig s = s
    · rw [if_pos h2] at h; exact absurd h (by simp)
    · rw [if_neg h2] at h
      by_cases h3 : (authority (orig s)).isEmpty
      · rw [if_pos h3] at h; exact absurd h (by simp)
      · rw [if_neg h3] at h
        intro hnil
        apply h3
        have hids : authority (orig s) = ids := by
          simpa using h
        rw [hids, hnil]
        simp
  · rw [if_neg h1] at h
    intro hnil
    apply h1
    have hids : authority s = ids := by simpa using h
    rw [hids, hnil]
    simp

/-- The fold of `_translate_gene_symbols`, with a general accumulator:
the table collects the resolvable symbols in order, the unmapped list
the rest. -/
theorem translate_foldl (authority : String → List String)
    (orig : String → String) (l : List String)
    (acc : List (String × List String) × List String) :
    l.foldl
      (fun acc gene_symbol =>
        match resolveSymbol authority orig gene_symbol with
        | none => (acc.1, acc.2 ++ [gene_symbol])
        | some uniprot_id => (acc.1 ++ [(gene_symbol, uniprot_id)], acc.2))
      acc
    = (acc.1
        ++ (l.filter (fun s => (resolveSymbol authority orig s).isSome)).map
            (fun s => (s, (resolveSymbol authority orig s).getD [])),
       acc.2 ++ l.filter (fun s => (resolveSymbol authority orig s).isNone)) := by
  induction l generalizing acc with
  | nil => simp
  | cons s l ih =>
    simp only [List.foldl_cons]
    rw [ih]
    cases hres : resolveSymbol authority orig s <;>
      simp [hres, List.filter_cons]

/-- The resolution table lists the resolvable symbols in input order. -/
theorem translate_fst (authority : String → List String)
    (orig : String → String) (symbols : List String) :
    (translateGeneSymbols authority orig symbols).1
    = (symbols.filter (fun s => (resolveSymbol authority orig s).isSome)).map
        (fun s => (s, (resolveSymbol authority orig s).getD [])) := by
  unfold translateGeneSymbols
  rw [translate_foldl]
  simp

/-- The unmapped list holds exactly the unresolvable symbols. -/
theorem translate_snd (authority : String → List String)
    (orig : String → String) (symbols : List String) :
    (translateGeneSymbols authority orig symbols).2
    = symbols.filter (fun s => (resolveSymbol authority orig s).isNone) := by
  unfold translateGeneSymbols
  rw [translate_foldl]
  simp

/-- Unfolding dictionary lookup over a cons cell. -/
theorem dictGet_cons (k : String) (v : List String)
    (d : List (String × List String)) (s : String) :
    dictGet ((k, v) :: d) s = if k == s then some v else dictGet d s := by
  simp only [dictGet, List.find?_cons]
  cases h : k == s <;> simp [h]

/-- Looking a symbol up in the built table is exactly per-symbol
resolution, for symbols of the input; absent symbols miss. -/
theorem dictGet_translate (authority : String → List String)
    (orig : String → String) (symbols : List String) (s : String) :
    dictGet (translateGeneSymbols authority orig symbols).1 s
    = if s ∈ symbols then resolveSymbol authority orig s else none := by
  rw [translate_fst]
  induction symbols with
  | nil => simp [dictGet]
  | cons a l ih =>
    rw [List.filter_cons]
    by_cases ha : (resolveSymbol authority orig a).isSome
    · rw [if_pos ha, List.map_cons, dictGet_cons]
      by_cases has : a = s
      · subst has
        rw [if_pos (by simp), if_pos (List.mem_cons_self a l)]
        cases hres : resolveSymbol authority orig a
        · rw [hres] at ha; simp at ha
        · simp [hres]
      · rw [if_neg (by simpa using has), ih]
        by_cases hs : s ∈ l
        · rw [if_pos hs, if_pos (List.mem_cons_of_mem a hs)]
        · rw [if_neg hs, if_neg (by
            simp only [List.mem_cons, not_or]
            exact ⟨fun h => has h.symm, hs⟩)]
    · rw [if_neg ha, ih]
      by_cases has : a = s
      · subst has
        rw [if_pos (List.mem_cons_self a l)]
        have hnone : resolveSymbol authority orig a = none := by
          cases hres : resolveSymbol authority orig a
          · rfl
          · rw [hres] at ha; simp at ha
        by_cases hs : a ∈ l
        · rw [if_pos hs, hnone]
        · rw [if_neg hs, hnone]
      · by_cases hs : s ∈ l
        · rw [if_pos hs, if_pos (List.mem_cons_of_mem a hs)]
        · rw [if_neg hs, if_neg (by
            simp only [List.mem_cons, not_or]
            exact ⟨fun h => has h.symm, hs⟩)]

/-- Membership in the unmapped output. -/
theorem mem_unmapped (authority : String → List String)
    (orig : String → String) (symbols : List String) (s : String) :
    s ∈ (translateGeneSymbols authority orig symbols).2
    ↔ s ∈ symbols ∧ resolveSymbol authority orig s = none := by
  rw [translate_snd]
  simp [List.mem_filter, Option.isNone_iff_eq_none]

/-- C3: after `_translate_gene_symbols` completes over any input symbol
set, every input symbol is in exactly one of the resolution table and
the unmapped set (never both, never neither), and every symbol present
in the table maps to at least one identifier. -/
theorem translate_partition (authority : String → List String)
    (orig : String → String) (symbols : List String) (s : String)
    (hs : s ∈ symbols) :
    ((∃ ids, dictGet (translateGeneSymbols authority orig symbols).1 s
          = some ids)
        ∧ s ∉ (translateGeneSymbols authority orig symbols).2
      ∨ s ∈ (translateGeneSymbols authority orig symbols).2
        ∧ dictGet (translateGeneSymbols authority orig symbols).1 s = none)
    ∧ ∀ p ∈ (translateGeneSymbols authority orig symbols).1, p.2 ≠ [] := by
  constructor
  · rw [dictGet_translate, if_pos hs, mem_unmapped]
    cases hres : resolveSymbol authority orig s with
    | none => exact Or.inr ⟨⟨hs, rfl⟩, rfl⟩
    | some ids =>
      exact Or.inl ⟨⟨ids, rfl⟩,
        fun hc => Option.noConfusion hc.2⟩
  · intro p hp
    rw [translate_fst] at hp
    simp only [List.mem_map, List.mem_filter] at hp
    obtain ⟨x, ⟨_, hsome⟩, rfl⟩ := hp
    cases hres : resolveSymbol authority orig x with
    | none => rw [hres] at hsome; cases hsome
    | some ids =>
      simpa [hres] using resolveSymbol_ne_nil authority orig x ids hres

theorem translate_partition_witness :
    (("A" : String) ∈ ["A"])
    ∧ (((∃ ids, dictGet
            (translateGeneSymbols (fun _ => ["P"]) (fun s => s) ["A"]).1 "A"
          = some ids)
        ∧ "A" ∉ (translateGeneSymbols (fun _ => ["P"]) (fun s => s) ["A"]).2
      ∨ "A" ∈ (translateGeneSymbols (fun _ => ["P"]) (fun s => s) ["A"]).2
        ∧ dictGet
            (translateGeneSymbols (fun _ => ["P"]) (fun s => s) ["A"]).1 "A"
          = none)
    ∧ ∀ p ∈ (translateGeneSymbols (fun _ => ["P"]) (fun s => s) ["A"]).1,
        p.2 ≠ []) :=
  ⟨by decide,
   translate_partition (fun _ => ["P"]) (fun s => s) ["A"] "A" (by decide)⟩

/-- C4: a mapping-authority failure for one symbol — surfacing, per the
authority's contract, as an empty query result for the symbol and for
its original form — leaves that symbol unmapped and leaves every
symbol of the pass resolved exactly per its own per-symbol outcome:
the pass completes, nothing aborts. -/
theorem resolution_failure_recovered (authority : String → List String)
    (orig : String → String) (symbols : List String) (s : String)
    (hs : s ∈ symbols) (h1 : authority s = [])
    (h2 : authority (orig s) = []) :
    s ∈ (translateGeneSymbols authority orig symbols).2
    ∧ ∀ t ∈ symbols,
        dictGet (translateGeneSymbols authority orig symbols).1 t
        = resolveSymbol authority orig t := by
  constructor
  · rw [mem_unmapped]
    refine ⟨hs, ?_⟩
    rw [resolveSymbol_eq, if_pos (by rw [h1]; rfl)]
    by_cases ho : orig s = s
    · rw [if_pos ho]
    · rw [if_neg ho, if_pos (by rw [h2]; rfl)]
  · intro t ht
    rw [dictGet_translate, if_pos ht]

theorem resolution_failure_recovered_witness :
    (("B" : String) ∈ ["B"] ∧ (fun (_ : String) => ([] : List String)) "B" = []
      ∧ (fun (_ : String) => ([] : List String)) ((fun s => s) "B") = [])
    ∧ ("B" ∈ (translateGeneSymbols (fun _ => []) (fun s => s) ["B"]).2
      ∧ ∀ t ∈ ["B"],
          dictGet (translateGeneSymbols (fun _ => []) (fun s => s) ["B"]).1 t
          = resolveSymbol (fun _ => []) (fun s => s) t) :=
  ⟨⟨by decide, rfl, rfl⟩,
   resolution_failure_recovered (fun _ => []) (fun s => s) ["B"] "B"
     (by decide) rfl rfl⟩

/-- C9: resolution is order-independent — for any two enumeration
orders of the same symbol set, the built table is the same as a map
(pointwise-equal lookup) and the unmapped set is the same as a set. -/
theorem translate_perm_invariant (authority : String → List String)
    (orig : String → String) (l1 l2 : List String) (hp : l1.Perm l2) :
    (∀ s, dictGet (translateGeneSymbols authority orig l1).1 s
        = dictGet (translateGeneSymbols authority orig l2).1 s)
    ∧ ∀ s, s ∈ (translateGeneSymbols authority orig l1).2
        ↔ s ∈ (translateGeneSymbols authority orig l2).2 := by
  constructor
  · intro s
    rw [dictGet_translate, dictGet_translate]
    by_cases h : s ∈ l1
    · rw [if_pos h, if_pos (hp.mem_iff.mp h)]
    · rw [if_neg h, if_neg (fun hc => h (hp.mem_iff.mpr hc))]
  · intro s
    rw [mem_unmapped, mem_unmapped, hp.mem_iff]

theorem translate_perm_invariant_witness :
    (["A", "B"].Perm ["B", "A"])
    ∧ ((∀ s, dictGet
          (translateGeneSymbols (fun _ => ["P"]) (fun s => s) ["A", "B"]).1 s
        = dictGet
          (translateGeneSymbols (fun _ => ["P"]) (fun s => s) ["B", "A"]).1 s)
      ∧ ∀ s, s ∈ (translateGeneSymbols (fun _ => ["P"]) (fun s => s)
            ["A", "B"]).2
          ↔ s ∈ (translateGeneSymbols (fun _ => ["P"]) (fun s => s)
            ["B", "A"]).2) :=
  ⟨List.Perm.swap "B" "A" [],
   translate_perm_invariant (fun _ => ["P"]) (fun s => s) ["A", "B"]
     ["B", "A"] (List.Perm.swap "B" "A" [])⟩

/-- C5: fallback correctness — with the authority empty on "FOO" but
returning \x7b"P1"\x7d on the recorded original form "FOO-ORIG" ≠ "FOO",
resolving the data whose one symbol is "FOO" yields the table
\x7b"FOO": ["P1"]\x7d and an empty unmapped set. -/
theorem fallback_resolves_FOO :
    translateFromData (fun s => if s = "FOO-ORIG" then ["P1"] else [])
      [⟨"FOO", "m", "1", "0.5", "db", "FOO-ORIG", "m", "high"⟩]
    = ([("FOO", ["P1"])], []) := by decide

/-- C6: no-fallback-loop — when the initial query for "BAR" is empty
and the recorded original form equals "BAR" itself, resolution places
"BAR" in the unmapped set, and the query trace for "BAR" is the single
initial query (no second mapping-authority query). -/
theorem no_fallback_loop_BAR :
    translateFromData (fun _ => [])
      [⟨"BAR", "m", "1", "0.5", "db", "BAR", "m", "high"⟩]
    = ([], ["BAR"])
    ∧ resolveSymbolQueries (fun _ => [])
        (originalOf [⟨"BAR", "m", "1", "0.5", "db", "BAR", "m", "high"⟩])
        "BAR"
    = ["BAR"] := by decide

/-- C1: for every row of an edge batch, a symbol keyed in the
resolution table yields exactly one edge record per resolved
identifier, and a symbol absent from the table yields zero records. -/
theorem getEdgesRow_counts (h : String → String)
    (tab : List (String × List String)) (fields : List MirnaGeneEdgeField)
    (r : Row) :
    (∀ ids, dictGet tab r.gene_symbol = some ids →
      (getEdgesRow h tab fields r).length = ids.length)
    ∧ (dictGet tab r.gene_symbol = none → getEdgesRow h tab fields r = []) := by
  constructor
  · intro ids hids
    simp [getEdgesRow, MirnaGeneEdgeField.value, Row.item, hids]
  · intro hnone
    simp [getEdgesRow, MirnaGeneEdgeField.value, Row.item, hnone]

theorem getEdgesRow_counts_witness :
    (dictGet demoTab demoRow.gene_symbol = some ["P", "Q"]
      ∧ (getEdgesRow (fun s => s) demoTab [] demoRow).length
          = (["P", "Q"] : List String).length)
    ∧ (dictGet demoTab
          ({ demoRow with gene_symbol := "absent" } : Row).gene_symbol = none
      ∧ getEdgesRow (fun s => s) demoTab []
          { demoRow with gene_symbol := "absent" } = []) :=
  ⟨⟨by decide,
    (getEdgesRow_counts (fun s => s) demoTab [] demoRow).1 ["P", "Q"]
      (by decide)⟩,
   ⟨by decide,
    (getEdgesRow_counts (fun s => s) demoTab []
        { demoRow with gene_symbol := "absent" }).2 (by decide)⟩⟩

/-- C7: with "score" outside the active field set no emitted record's
property mapping has a "score" key, and the keys "source", "version"
and "licence" are present in every emitted record regardless of the
active field set. -/
theorem props_field_conditional (h : String → String)
    (tab : List (String × List String)) (fields : List MirnaGeneEdgeField)
    (r : Row) :
    (MirnaGeneEdgeField.SCORE ∉ fields →
      ∀ e ∈ getEdgesRow h tab fields r, hasKey e.props "score" = false)
    ∧ ∀ e ∈ getEdgesRow h tab fields r,
        hasKey e.props "source" = true ∧ hasKey e.props "version" = true
        ∧ hasKey e.props "licence" = true := by
  constructor
  · intro hscore e he
    simp only [getEdgesRow, List.mem_map] at he
    obtain ⟨u, hu, rfl⟩ := he
    by_cases h1 : MirnaGeneEdgeField.RANK ∈ fields <;>
      by_cases h3 : MirnaGeneEdgeField.SCORE_CLASS ∈ fields <;>
      simp [hasKey, h1, h3, hscore]
  · intro e he
    simp only [getEdgesRow, List.mem_map] at he
    obtain ⟨u, hu, rfl⟩ := he
    by_cases h1 : MirnaGeneEdgeField.RANK ∈ fields <;>
      by_cases h2 : MirnaGeneEdgeField.SCORE ∈ fields <;>
      by_cases h3 : MirnaGeneEdgeField.SCORE_CLASS ∈ fields <;>
      simp [hasKey, h1, h2, h3]

theorem props_field_conditional_witness :
    (MirnaGeneEdgeField.SCORE ∉ ([] : List MirnaGeneEdgeField)
      ∧ demoEdgeBase ∈ getEdgesRow (fun s => s) demoTab [] demoRow)
    ∧ hasKey demoEdgeBase.props "score" = false
    ∧ (hasKey demoEdgeBase.props "source" = true
      ∧ hasKey demoEdgeBase.props "version" = true
      ∧ hasKey demoEdgeBase.props "licence" = true) :=
  ⟨⟨by decide, by decide⟩,
   (props_field_conditional (fun s => s) demoTab [] demoRow).1 (by decide)
     demoEdgeBase (by decide),
   (props_field_conditional (fun s => s) demoTab [] demoRow).2
     demoEdgeBase (by decide)⟩

/-- C10: an explicitly empty collection passed for node types, edge
types or edge fields is treated like passing nothing — the full
enumeration becomes active — and consequently edge emission under an
"empty" active-field set still includes rank, score and score_class in
every emitted record's properties. -/
theorem empty_selection_defaults :
    setNodeTypes (some []) = setNodeTypes none
    ∧ setEdgeTypes (some []) = setEdgeTypes none
    ∧ setEdgeFields (some []) = setEdgeFields none
    ∧ ∀ (h : String → String) (tab : List (String × List String)) (r : Row),
        ∀ e ∈ getEdgesRow h tab (setEdgeFields (some [])) r,
          hasKey e.props "rank" = true ∧ hasKey e.props "score" = true
          ∧ hasKey e.props "score_class" = true := by
  refine ⟨rfl, rfl, rfl, ?_⟩
  intro h tab r e he
  simp only [getEdgesRow, List.mem_map] at he
  obtain ⟨u, hu, rfl⟩ := he
  simp [hasKey, setEdgeFields, allEdgeFields]

theorem empty_selection_defaults_witness :
    (demoEdge ∈ getEdgesRow (fun s => s) demoTab (setEdgeFields (some []))
        demoRow)
    ∧ (hasKey demoEdge.props "rank" = true
      ∧ hasKey demoEdge.props "score" = true
      ∧ hasKey demoEdge.props "score_class" = true) :=
  ⟨by decide,
   empty_selection_defaults.2.2.2 (fun s => s) demoTab demoRow demoEdge
     (by decide)⟩

/-- On quote-free, backslash-free character lists the escape pass is
the identity. -/
theorem pyEscape_eq_self (q : Char) :
    ∀ cs : List Char, q ∉ cs → Char.ofNat 92 ∉ cs → pyEscape q cs = cs := by
  intro cs
  induction cs with
  | nil => intro _ _; rfl
  | cons c rest ih =>
    intro hqc hbc
    have hc92 : c ≠ Char.ofNat 92 := fun h => hbc (h ▸ List.mem_cons_self c rest)
    have hcq : c ≠ q := fun h => hqc (h ▸ List.mem_cons_self c rest)
    simp only [pyEscape, if_neg hc92, if_neg hcq]
    rw [ih (fun h => hqc (List.mem_cons_of_mem c h))
          (fun h => hbc (List.mem_cons_of_mem c h))]

/-- On clean strings Python `repr` is plain single-quoting. -/
theorem pyRepr_clean (s : String) (hc : cleanStr s) :
    pyRepr s = String.mk (Char.ofNat 39 :: (s.data ++ [Char.ofNat 39])) := by
  obtain ⟨hq, hb⟩ := hc
  have hcond : ¬(Char.ofNat 39 ∈ s.data ∧ Char.ofNat 34 ∉ s.data) :=
    fun h => hq h.1
  simp only [pyRepr, if_neg hcond]
  rw [pyEscape_eq_self (Char.ofNat 39) s.data hq hb]

/-- Lists followed by a separator absent from both are equal exactly
when the pieces are. -/
theorem append_sep_inj (q : Char) :
    ∀ (s t a b : List Char), q ∉ s → q ∉ t →
      s ++ q :: a = t ++ q :: b → s = t ∧ a = b := by
  intro s
  induction s with
  | nil =>
    intro t a b _ ht h
    cases t with
    | nil => simpa using h
    | cons c t2 =>
      simp only [List.nil_append, List.cons_append, List.cons.injEq] at h
      exact absurd (h.1 ▸ List.mem_cons_self c t2) ht
  | cons c s2 ih =>
    intro t a b hs ht h
    cases t with
    | nil =>
      simp only [List.cons_append, List.nil_append, List.cons.injEq] at h
      exact absurd (h.1.symm ▸ List.mem_cons_self c s2) hs
    | cons d t2 =>
      simp only [List.cons_append, List.cons.injEq] at h
      obtain ⟨rfl, h2⟩ := h
      have := ih t2 a b (fun hm => hs (List.mem_cons_of_mem c hm))
        (fun hm => ht (List.mem_cons_of_mem c hm)) h2
      exact ⟨by rw [this.1], this.2⟩

/-- Function `quoteJoin` is injective on equal-arity lists of quote-free cells. -/
theorem quoteJoin_inj :
    ∀ fs gs : List (List Char), fs.length = gs.length →
      (∀ f ∈ fs, Char.ofNat 39 ∉ f) → (∀ g ∈ gs, Char.ofNat 39 ∉ g) →
      quoteJoin fs = quoteJoin gs → fs = gs := by
  intro fs
  induction fs with
  | nil =>
    intro gs hlen _ _ _
    cases gs with
    | nil => rfl
    | cons g gs2 => simp at hlen
  | cons f fs ih =>
    intro gs hlen hf hg heq
    cases gs with
    | nil => simp at hlen
    | cons g gs2 =>
      have hfmem : Char.ofNat 39 ∉ f := hf f (List.mem_cons_self f fs)
      have hgmem : Char.ofNat 39 ∉ g := hg g (List.mem_cons_self g gs2)
      cases fs with
      | nil =>
        cases gs2 with
        | nil =>
          simp only [quoteJoin] at heq
          injection heq with hhead htail
          have := append_sep_inj (Char.ofNat 39) f g [] [] hfmem hgmem htail
          rw [this.1]
        | cons g2 gs3 => simp at hlen
      | cons f2 fs2 =>
        cases gs2 with
        | nil => simp at hlen
        | cons g2 gs3 =>
          simp only [quoteJoin] at heq
          injection heq with hhead htail
          obtain ⟨hfg, hrest⟩ :=
            append_sep_inj (Char.ofNat 39) f g _ _ hfmem hgmem htail
          injection hrest with hr1 hrest
          injection hrest with hr2 hrest
          have hqtail := ih (g2 :: gs3) (by simpa using hlen)
            (fun x hx => hf x (List.mem_cons_of_mem f hx))
            (fun x hx => hg x (List.mem_cons_of_mem g hx)) hrest
          rw [hfg, hqtail]

/-- For clean rows, the characters of the Python `str` of the row are
an open paren, the quote-joined cells, and a close paren. -/
theorem rowStr_data (r : Row) (hc : cleanRow r) :
    (rowStr r).data
    = '(' :: (quoteJoin
        [r.gene_symbol.data, r.microrna.data, r.rank.data, r.score.data,
         r.source.data, r.gene_symbol_ori.data, r.microrna_ori.data,
         r.score_class.data] ++ [')']) := by
  obtain ⟨c1, c2, c3, c4, c5, c6, c7, c8⟩ := hc
  simp only [rowStr, pyRepr_clean _ c1, pyRepr_clean _ c2, pyRepr_clean _ c3,
    pyRepr_clean _ c4, pyRepr_clean _ c5, pyRepr_clean _ c6,
    pyRepr_clean _ c7, pyRepr_clean _ c8, String.data_append]
  simp [quoteJoin]

/-- For clean rows, the hashed row string determines the row. -/
theorem rowStr_inj (r1 r2 : Row) (h1 : cleanRow r1) (h2 : cleanRow r2) :
    rowStr r1 = rowStr r2 ↔ r1 = r2 := by
  constructor
  · intro heq
    have hd : (rowStr r1).data = (rowStr r2).data := by rw [heq]
    rw [rowStr_data r1 h1, rowStr_data r2 h2] at hd
    simp only [List.cons.injEq, true_and] at hd
    have hqj := List.append_cancel_right hd
    obtain ⟨d1, d2, d3, d4, d5, d6, d7, d8⟩ := h1
    obtain ⟨e1, e2, e3, e4, e5, e6, e7, e8⟩ := h2
    have hfields := quoteJoin_inj _ _ (by simp)
      (by
        intro x hx
        simp only [List.mem_cons, List.not_mem_nil, or_false] at hx
        rcases hx with rfl | rfl | rfl | rfl | rfl | rfl | rfl | rfl
        · exact d1.1
        · exact d2.1
        · exact d3.1
        · exact d4.1
        · exact d5.1
        · exact d6.1
        · exact d7.1
        · exact d8.1)
      (by
        intro x hx
        simp only [List.mem_cons, List.not_mem_nil, or_false] at hx
        rcases hx with rfl | rfl | rfl | rfl | rfl | rfl | rfl | rfl
        · exact e1.1
        · exact e2.1
        · exact e3.1
        · exact e4.1
        · exact e5.1
        · exact e6.1
        · exact e7.1
        · exact e8.1) hqj
    simp only [List.cons.injEq, and_true] at hfields
    obtain ⟨f1, f2, f3, f4, f5, f6, f7, f8⟩ := hfields
    cases r1
    cases r2
    simp only at f1 f2 f3 f4 f5 f6 f7 f8
    simp only [Row.mk.injEq]
    exact ⟨String.ext f1, String.ext f2, String.ext f3, String.ext f4,
      String.ext f5, String.ext f6, String.ext f7, String.ext f8⟩
  · intro h
    rw [h]

/-- C2: edge emission is idempotent — identical batches with the same
resolver output and active fields give identical edge-record multisets;
every emitted identifier is the hash of the row's content string, so it
is stable across runs; and on clean rows the hashed content string (and
hence, for a collision-free hash, the identifier) changes whenever any
row field changes. -/
theorem getEdges_idempotent_content_hash (h : String → String)
    (tab : List (String × List String)) (fields : List MirnaGeneEdgeField)
    (b1 b2 : List Row) (hb : b1 = b2) :
    ((getEdges h tab fields b1 : List Edge) : Multiset Edge)
      = ((getEdges h tab fields b2 : List Edge) : Multiset Edge)
    ∧ (∀ r ∈ b1, ∀ e ∈ getEdgesRow h tab fields r, e.eid = h (rowStr r))
    ∧ (∀ r1 r2 : Row, cleanRow r1 → cleanRow r2 →
        (rowStr r1 = rowStr r2 ↔ r1 = r2))
    ∧ (∀ r1 r2 : Row, Function.Injective h → cleanRow r1 → cleanRow r2 →
        r1 ≠ r2 → h (rowStr r1) ≠ h (rowStr r2)) := by
  refine ⟨by rw [hb], ?_, ?_, ?_⟩
  · intro r _ e he
    simp only [getEdgesRow, List.mem_map] at he
    obtain ⟨u, _, rfl⟩ := he
    rfl
  · exact fun r1 r2 hc1 hc2 => rowStr_inj r1 r2 hc1 hc2
  · intro r1 r2 hinj hc1 hc2 hne hcontra
    exact hne ((rowStr_inj r1 r2 hc1 hc2).mp (hinj hcontra))

theorem getEdges_idempotent_content_hash_witness :
    ([demoRow] = [demoRow])
    ∧ (((getEdges (fun s => s) demoTab [] [demoRow] : List Edge) :
          Multiset Edge)
        = ((getEdges (fun s => s) demoTab [] [demoRow] : List Edge) :
          Multiset Edge)
      ∧ (∀ r ∈ [demoRow], ∀ e ∈ getEdgesRow (fun s => s) demoTab [] r,
          e.eid = rowStr r)
      ∧ (∀ r1 r2 : Row, cleanRow r1 → cleanRow r2 →
          (rowStr r1 = rowStr r2 ↔ r1 = r2))
      ∧ (∀ r1 r2 : Row, Function.Injective (fun s : String => s) →
          cleanRow r1 → cleanRow r2 → r1 ≠ r2 →
          rowStr r1 ≠ rowStr r2)) :=
  ⟨rfl,
   getEdges_idempotent_content_hash (fun s => s) demoTab [] [demoRow]
     [demoRow] rfl⟩

/-- C8: the concrete scenario — a single row with gene symbol "TP53",
microRNA "hsa-miR-21", score 0.9, score class "high" and source "db1",
resolver mapping "TP53" to \x7b"P04637"\x7d, active fields \x7bSCORE\x7d — emits
exactly one edge record: the row-content hash, "hsa-miR-21",
"uniprot:P04637", label "mirna_protein_interaction_high", and
properties source, version "mirDIP version 5.2", licence and score. -/
theorem scenario_TP53 (h : String → String) (rank gso mio : String) :
    getEdgesRow h [("TP53", ["P04637"])] [MirnaGeneEdgeField.SCORE]
      ⟨"TP53", "hsa-miR-21", rank, "0.9", "db1", gso, mio, "high"⟩
    = [{ eid := h (rowStr
           ⟨"TP53", "hsa-miR-21", rank, "0.9", "db1", gso, mio, "high"⟩),
         src := "hsa-miR-21", tgt := "uniprot:P04637",
         label := "mirna_protein_interaction_high",
         props := [("source", "db1"), ("version", "mirDIP version 5.2"),
                   ("licence", dataLicence), ("score", "0.9")] }] := by
  rfl

end MirDIP
